import Mathlib

/-!
Verification of the OpenSubdiv `Osd::DrawContext` patch-array conversion and
packing layer (`opensubdiv/osd/drawContext.h`).

The header defines the `PatchArray` value type, the `DrawContext` aggregate
and declares the static conversion/packing entry points.  `Far::PatchDescriptor`
and `Far::PatchTables`, as well as the bodies of `ConvertPatchArrays` and the
three packers, live outside the provided sources; those parts are modelled
from the specification and marked as such in their doc comments.

C++ `int` fields are embedded as `Int`; accessors that return C++
`unsigned int` reduce the stored value modulo `2 ^ 32`, mirroring the
implementation-defined `int` → `unsigned int` conversion.
-/

namespace OpenSubdiv

namespace Far

/-- Modelled from the spec: `Far::PatchDescriptor` type tag (the header only
forward-declares the Far layer).  The spec lists regular, boundary, corner,
Gregory and Gregory-boundary patch kinds; `triangles` is the triangular
hardware-tessellable kind that transition decompositions emit. -/
inductive PatchType where
  | regular
  | boundary
  | corner
  | gregory
  | gregoryBoundary
  | triangles
  deriving DecidableEq, Repr

/-- Modelled from the spec: the transition-pattern identifier carried by a
patch descriptor (`nonTransition` for ordinary patches). -/
inductive TransitionPattern where
  | nonTransition
  | pattern0
  | pattern1
  | pattern2
  | pattern3
  | pattern4
  deriving DecidableEq, Repr

/-- Modelled from the spec: `Far::PatchDescriptor` is an immutable value of
type tag, transition pattern and rotation (0-3), compared by value. -/
structure PatchDescriptor where
  patchType : PatchType
  pattern : TransitionPattern
  rotation : Nat
  deriving DecidableEq, Repr

/-- Modelled from the spec: `controlVertexCount()` is a pure function of the
descriptor's type; distinct patch kinds have fixed, known vertex counts
(a regular bicubic patch has 16). -/
def PatchDescriptor.GetNumControlVertices (d : PatchDescriptor) : Nat :=
  match d.patchType with
  | .regular => 16
  | .boundary => 12
  | .corner => 9
  | .gregory => 4
  | .gregoryBoundary => 4
  | .triangles => 3

/-- Modelled from the spec: one native patch group of a `Far::PatchTables`:
a descriptor, a patch count, the group's control-vertex indices, its optional
sharpness values, and one source face index per patch for face-varying
relayout. -/
structure NativeGroup where
  desc : PatchDescriptor
  numPatches : Nat
  verts : List Int
  sharpness : List Nat
  faces : List Nat
  deriving DecidableEq, Repr

/-- Modelled from the spec: `Far::PatchTables` as consumed here: the ordered
list of native patch groups. -/
structure PatchTables where
  groups : List NativeGroup
  deriving DecidableEq, Repr

/-- Modelled from the spec: structural validity of a native group: the
control-vertex run has exactly `numPatches * controlVertexCount` entries and
there is one source face per patch. -/
def NativeGroup.WellFormed (g : NativeGroup) : Prop :=
  g.verts.length = g.numPatches * g.desc.GetNumControlVertices ∧
    g.faces.length = g.numPatches

instance (g : NativeGroup) : Decidable g.WellFormed := by
  unfold NativeGroup.WellFormed
  infer_instance

end Far

namespace Osd

/-- `DrawContext::PatchArray` (drawContext.h:64-132): a descriptor, a patch
count (C++ `int`) and three `Far::Index` (C++ `int`) offsets. -/
structure DrawContext.PatchArray where
  desc : Far.PatchDescriptor
  npatches : Int
  vertIndex : Int
  patchIndex : Int
  quadOffsetIndex : Int
  deriving DecidableEq, Repr

namespace DrawContext.PatchArray

/-- `GetDescriptor` (drawContext.h:85-87). -/
def GetDescriptor (pa : PatchArray) : Far.PatchDescriptor :=
  pa.desc

/-- `SetDescriptor` (drawContext.h:90-92). -/
def SetDescriptor (pa : PatchArray) (d : Far.PatchDescriptor) : PatchArray :=
  { pa with desc := d }

/-- `GetVertIndex` (drawContext.h:96-98): returns `_vertIndex` as
`unsigned int`. -/
def GetVertIndex (pa : PatchArray) : Int :=
  pa.vertIndex % 2 ^ 32

/-- `GetPatchIndex` (drawContext.h:102-104): returns `_patchIndex` as
`unsigned int`. -/
def GetPatchIndex (pa : PatchArray) : Int :=
  pa.patchIndex % 2 ^ 32

/-- `GetNumPatches` (drawContext.h:107-109): returns `_npatches` as
`unsigned int`. -/
def GetNumPatches (pa : PatchArray) : Int :=
  pa.npatches % 2 ^ 32

/-- `GetNumIndices` (drawContext.h:112-114): returns
`_npatches * _desc.GetNumControlVertices()` as `unsigned int` (32-bit
product). -/
def GetNumIndices (pa : PatchArray) : Int :=
  pa.npatches * (pa.desc.GetNumControlVertices : Int) % 2 ^ 32

/-- `GetQuadOffsetIndex` (drawContext.h:117-119): returns `_quadOffsetIndex`
as `unsigned int`. -/
def GetQuadOffsetIndex (pa : PatchArray) : Int :=
  pa.quadOffsetIndex % 2 ^ 32

/-- `SetNumPatches` (drawContext.h:122-124). -/
def SetNumPatches (pa : PatchArray) (n : Int) : PatchArray :=
  { pa with npatches := n }

end DrawContext.PatchArray

/-- The mutations `DrawContext::PatchArray` exposes after construction:
`SetDescriptor` and `SetNumPatches` are its only mutating members. -/
inductive PatchArrayOp where
  | setDescriptor (d : Far.PatchDescriptor)
  | setNumPatches (n : Int)
  deriving Repr

/-- Apply one exposed mutation to a `PatchArray`. -/
def applyPatchArrayOp (pa : DrawContext.PatchArray) :
    PatchArrayOp → DrawContext.PatchArray
  | .setDescriptor d => pa.SetDescriptor d
  | .setNumPatches n => pa.SetNumPatches n

/-- Apply a sequence of exposed mutations to a `PatchArray`. -/
def applyPatchArrayOps (pa : DrawContext.PatchArray)
    (ops : List PatchArrayOp) : DrawContext.PatchArray :=
  ops.foldl applyPatchArrayOp pa

lemma GetNumIndices_eq (pa : DrawContext.PatchArray) :
    pa.GetNumIndices =
      pa.GetNumPatches * (pa.desc.GetNumControlVertices : Int) % 2 ^ 32 := by
  unfold DrawContext.PatchArray.GetNumIndices DrawContext.PatchArray.GetNumPatches
  conv_lhs => rw [Int.mul_emod]
  conv_rhs => rw [Int.mul_emod]
  rw [Int.emod_emod_of_dvd _ dvd_rfl]

/-- C1.  In every `PatchArray` state, reached by any sequence of
`SetNumPatches` and `SetDescriptor` calls, `GetNumIndices()` equals
`GetNumPatches()` multiplied by the descriptor's control-vertex count
(the product being taken in the 32-bit unsigned arithmetic both accessors
return). -/
theorem numIndices_consistent_under_mutation
    (pa : DrawContext.PatchArray) (ops : List PatchArrayOp) :
    (applyPatchArrayOps pa ops).GetNumIndices =
      (applyPatchArrayOps pa ops).GetNumPatches *
        ((applyPatchArrayOps pa ops).GetDescriptor.GetNumControlVertices : Int) %
          2 ^ 32 :=
  GetNumIndices_eq (applyPatchArrayOps pa ops)

/-- C6.  `PatchArray` is mutable only in its patch count and descriptor:
any sequence of `SetNumPatches`/`SetDescriptor` calls (the only mutating
members the class exposes) leaves `GetVertIndex()`, `GetPatchIndex()` and
`GetQuadOffsetIndex()` unchanged. -/
theorem patchArray_offsets_frame
    (pa : DrawContext.PatchArray) (ops : List PatchArrayOp) :
    (applyPatchArrayOps pa ops).GetVertIndex = pa.GetVertIndex ∧
      (applyPatchArrayOps pa ops).GetPatchIndex = pa.GetPatchIndex ∧
      (applyPatchArrayOps pa ops).GetQuadOffsetIndex = pa.GetQuadOffsetIndex := by
  induction ops generalizing pa with
  | nil => exact ⟨rfl, rfl, rfl⟩
  | cons op ops ih =>
    have h := ih (applyPatchArrayOp pa op)
    cases op <;>
      simpa [applyPatchArrayOps, applyPatchArrayOp,
        DrawContext.PatchArray.SetDescriptor, DrawContext.PatchArray.SetNumPatches,
        DrawContext.PatchArray.GetVertIndex, DrawContext.PatchArray.GetPatchIndex,
        DrawContext.PatchArray.GetQuadOffsetIndex] using h

/-- C8.  The `PatchArray` constructor (drawContext.h:79-82) stores its five
arguments with pure value semantics: for any representable non-negative
`int` arguments, every accessor returns exactly the constructed value. -/
theorem patchArray_value_semantics
    (d : Far.PatchDescriptor) (n v p q : Int)
    (hn0 : 0 ≤ n) (hn1 : n < 2 ^ 31) (hv0 : 0 ≤ v) (hv1 : v < 2 ^ 31)
    (hp0 : 0 ≤ p) (hp1 : p < 2 ^ 31) (hq0 : 0 ≤ q) (hq1 : q < 2 ^ 31) :
    (DrawContext.PatchArray.mk d n v p q).GetDescriptor = d ∧
      (DrawContext.PatchArray.mk d n v p q).GetNumPatches = n ∧
      (DrawContext.PatchArray.mk d n v p q).GetVertIndex = v ∧
      (DrawContext.PatchArray.mk d n v p q).GetPatchIndex = p ∧
      (DrawContext.PatchArray.mk d n v p q).GetQuadOffsetIndex = q := by
  refine ⟨rfl, ?_, ?_, ?_, ?_⟩ <;>
    simp only [DrawContext.PatchArray.GetNumPatches,
      DrawContext.PatchArray.GetVertIndex, DrawContext.PatchArray.GetPatchIndex,
      DrawContext.PatchArray.GetQuadOffsetIndex] <;>
    omega

/-- Witness for C8 at the concrete constructor call
`PatchArray(desc, 4, 0, 7, 12)` with a regular descriptor. -/
theorem patchArray_value_semantics_witness :
    (DrawContext.PatchArray.mk ⟨.regular, .nonTransition, 0⟩ 4 0 7 12).GetDescriptor =
        ⟨.regular, .nonTransition, 0⟩ ∧
      (DrawContext.PatchArray.mk ⟨.regular, .nonTransition, 0⟩ 4 0 7 12).GetNumPatches = 4 ∧
      (DrawContext.PatchArray.mk ⟨.regular, .nonTransition, 0⟩ 4 0 7 12).GetVertIndex = 0 ∧
      (DrawContext.PatchArray.mk ⟨.regular, .nonTransition, 0⟩ 4 0 7 12).GetPatchIndex = 7 ∧
      (DrawContext.PatchArray.mk ⟨.regular, .nonTransition, 0⟩ 4 0 7 12).GetQuadOffsetIndex = 12 :=
  patchArray_value_semantics ⟨.regular, .nonTransition, 0⟩ 4 0 7 12
    (by decide) (by decide) (by decide) (by decide)
    (by decide) (by decide) (by decide) (by decide)

/-- `DrawContext` (drawContext.h:59-188): the aggregate owning the
`PatchArray` list, the adaptive flag and `maxValence` (a C++ `int`). -/
structure DrawContext where
  patchArrays : List DrawContext.PatchArray
  isAdaptive : Bool
  maxValence : Int
  deriving Repr

/-- The `DrawContext(int maxValence)` constructor (drawContext.h:135):
initializes `_isAdaptive` to `false`, stores `maxValence`, and
default-constructs the (empty) patch-array vector. -/
def DrawContext.make (maxValence : Int) : DrawContext :=
  ⟨[], false, maxValence⟩

/-- `IsAdaptive` (drawContext.h:142-144). -/
def DrawContext.IsAdaptive (dc : DrawContext) : Bool :=
  dc.isAdaptive

/-- `GetPatchArrays` (drawContext.h:148-150). -/
def DrawContext.GetPatchArrays (dc : DrawContext) : List DrawContext.PatchArray :=
  dc.patchArrays

/-- `GetMaxValence` (drawContext.h:164-166). -/
def DrawContext.GetMaxValence (dc : DrawContext) : Int :=
  dc.maxValence

/-- The state mutations available on a `DrawContext` after construction:
rewriting the patch-array list through the writable `GetPatchArrays()`
accessor (drawContext.h:154-156), and setting the protected `_isAdaptive`
flag from a conversion pass. -/
inductive DrawContextOp where
  | setPatchArrays (pas : List DrawContext.PatchArray)
  | setIsAdaptive (b : Bool)
  deriving Repr

/-- Apply one `DrawContext` mutation. -/
def applyDrawContextOp (dc : DrawContext) : DrawContextOp → DrawContext
  | .setPatchArrays pas => { dc with patchArrays := pas }
  | .setIsAdaptive b => { dc with isAdaptive := b }

/-- Apply a sequence of `DrawContext` mutations. -/
def applyDrawContextOps (dc : DrawContext) (ops : List DrawContextOp) :
    DrawContext :=
  ops.foldl applyDrawContextOp dc

/-- C7.  A `DrawContext` constructed with `maxValence = m` reports
`GetMaxValence() = m`, and every subsequent operation on the context
preserves that value. -/
theorem maxValence_immutable (m : Int) (ops : List DrawContextOp) :
    (DrawContext.make m).GetMaxValence = m ∧
      (applyDrawContextOps (DrawContext.make m) ops).GetMaxValence = m := by
  refine ⟨rfl, ?_⟩
  have h : ∀ (ops : List DrawContextOp) (dc : DrawContext),
      (applyDrawContextOps dc ops).GetMaxValence = dc.GetMaxValence := by
    intro ops
    induction ops with
    | nil => intro dc; rfl
    | cons op ops ih =>
      intro dc
      have := ih (applyDrawContextOp dc op)
      cases op <;>
        simpa [applyDrawContextOps, applyDrawContextOp,
          DrawContext.GetMaxValence] using this
  exact h ops (DrawContext.make m)

/-- C9.  For every `maxValence` argument, a freshly constructed
`DrawContext` reports `IsAdaptive() = false`: the flag is initialized to
`false` independently of the constructor argument. -/
theorem fresh_context_not_adaptive (m : Int) :
    (DrawContext.make m).IsAdaptive = false :=
  rfl

/-- C10.  For every `maxValence` argument, a freshly constructed
`DrawContext` has an empty patch-array list. -/
theorem fresh_context_empty_patchArrays (m : Int) :
    (DrawContext.make m).GetPatchArrays = [] :=
  rfl

/-- Modelled from the spec: the table-driven decomposition rule mapping a
transition-pattern identifier to the list of hardware sub-patch descriptors
(`none` when the pattern is directly tessellable).  The exact mapping is
external GPU domain knowledge the spec leaves to the implementer; this model
fixes a representative table in which `pattern0`/`pattern1` are simple
transition rotations tessellated directly, while `pattern2`, `pattern3` and
`pattern4` decompose into 3, 4 and 5 triangular sub-patches. -/
def decomposition (d : Far.PatchDescriptor) :
    Option (List Far.PatchDescriptor) :=
  match d.pattern with
  | .nonTransition => none
  | .pattern0 => none
  | .pattern1 => none
  | .pattern2 => some [⟨.triangles, .pattern2, 0⟩, ⟨.triangles, .pattern2, 1⟩,
      ⟨.triangles, .pattern2, 2⟩]
  | .pattern3 => some [⟨.triangles, .pattern3, 0⟩, ⟨.triangles, .pattern3, 1⟩,
      ⟨.triangles, .pattern3, 2⟩, ⟨.triangles, .pattern3, 3⟩]
  | .pattern4 => some [⟨.triangles, .pattern4, 0⟩, ⟨.triangles, .pattern4, 1⟩,
      ⟨.triangles, .pattern4, 2⟩, ⟨.triangles, .pattern4, 3⟩,
      ⟨.triangles, .pattern4, 0⟩]

/-- Modelled from the spec: the running (vertex, patch, quad-offset) offsets
the converter threads through the native groups. -/
structure ConvOffsets where
  vert : Nat
  patch : Nat
  quadOffset : Nat
  deriving DecidableEq, Repr

/-- Modelled from the spec: only Gregory-type groups consume the quad-offset
buffer (four ring-neighbor entries per patch); other types contribute
nothing. -/
def quadOffsetContribution (g : Far.NativeGroup) : Nat :=
  match g.desc.patchType with
  | .gregory => 4 * g.numPatches
  | .gregoryBoundary => 4 * g.numPatches
  | _ => 0

/-- Modelled from the spec: advance the running offsets by one native
group's total contribution (done once per group, regardless of how many
sub-arrays the group emits). -/
def advanceOffsets (o : ConvOffsets) (g : Far.NativeGroup) : ConvOffsets :=
  ⟨o.vert + g.numPatches * g.desc.GetNumControlVertices,
    o.patch + g.numPatches,
    o.quadOffset + quadOffsetContribution g⟩

/-- Modelled from the spec: the `PatchArray` entries one native group emits
at the current running offsets: a zero-patch group is skipped entirely; a
directly tessellable group is copied 1:1; a split group emits one entry per
sub-descriptor of its decomposition, all sharing the group's source
vertex-index range. -/
def convertGroupArrays (o : ConvOffsets) (g : Far.NativeGroup) :
    List DrawContext.PatchArray :=
  if g.numPatches = 0 then []
  else
    match decomposition g.desc with
    | none => [⟨g.desc, g.numPatches, o.vert, o.patch, o.quadOffset⟩]
    | some subs =>
        subs.map fun d => ⟨d, g.numPatches, o.vert, o.patch, o.quadOffset⟩

/-- Modelled from the spec: the converter's traversal of the native groups
in table order, threading the running offsets. -/
def convertFrom (o : ConvOffsets) : List Far.NativeGroup →
    List DrawContext.PatchArray
  | [] => []
  | g :: gs => convertGroupArrays o g ++ convertFrom (advanceOffsets o g) gs

/-- Modelled from the spec: the running offsets after a list of native
groups has been consumed. -/
def offsetsAfter (o : ConvOffsets) (gs : List Far.NativeGroup) : ConvOffsets :=
  gs.foldl advanceOffsets o

/-- Modelled from the spec: `DrawContext::ConvertPatchArrays`
(declared drawContext.h:160-161, body not in the provided sources):
processes the table's native groups in order, starting from zero offsets,
and produces the ordered `PatchArray` list. -/
def DrawContext.ConvertPatchArrays (tbl : Far.PatchTables) :
    List DrawContext.PatchArray :=
  convertFrom ⟨0, 0, 0⟩ tbl.groups

/-- Modelled from the spec: `DrawContext::packPatchVerts`
(declared drawContext.h:173-174, body not in the provided sources): append
every native group's control-vertex indices to the flat buffer in table
order. -/
def DrawContext.packPatchVerts (tbl : Far.PatchTables) : List Int :=
  (tbl.groups.map Far.NativeGroup.verts).flatten

/-- Modelled from the spec: `DrawContext::packSharpnessValues`
(declared drawContext.h:176-177, body not in the provided sources): append
every group's sharpness entries in table order; groups without sharpness
data contribute nothing. -/
def DrawContext.packSharpnessValues (tbl : Far.PatchTables) : List Nat :=
  (tbl.groups.map Far.NativeGroup.sharpness).flatten

/-- Modelled from the spec: `DrawContext::packFVarData`
(declared drawContext.h:179-180, body not in the provided sources): re-emit
the per-face source values per output patch in the packers' group order,
`fvarWidth` values per patch, as a pure relayout.  The float payload is
modelled as an abstract numeric value (`Int`) since no claim depends on
floating-point arithmetic. -/
def DrawContext.packFVarData (tbl : Far.PatchTables) (fvarWidth : Nat)
    (src : List Int) : List Int :=
  (tbl.groups.map fun g =>
    (g.faces.map fun f =>
      (List.range fvarWidth).map fun j => src.getD (f * fvarWidth + j) 0).flatten).flatten

lemma convertFrom_append (o : ConvOffsets) (xs ys : List Far.NativeGroup) :
    convertFrom o (xs ++ ys) =
      convertFrom o xs ++ convertFrom (offsetsAfter o xs) ys := by
  induction xs generalizing o with
  | nil => rfl
  | cons g gs ih =>
    simp [convertFrom, offsetsAfter, ih, List.foldl_cons]

lemma convertGroupArrays_numPatches_sum (o : ConvOffsets)
    (g : Far.NativeGroup) (hnone : decomposition g.desc = none)
    (hb : g.numPatches < 2 ^ 31) :
    ((convertGroupArrays o g).map DrawContext.PatchArray.GetNumPatches).sum =
      (g.numPatches : Int) := by
  unfold convertGroupArrays
  by_cases hz : g.numPatches = 0
  · simp [hz]
  · rw [if_neg hz, hnone]
    simp only [List.map_cons, List.map_nil, List.sum_cons, List.sum_nil,
      DrawContext.PatchArray.GetNumPatches, add_zero]
    omega

/-- C2.  For every input table and every native group of it whose
descriptor is not split (directly hardware-tessellable, so its
decomposition is `none`), `ConvertPatchArrays` emits for that group a
segment of `PatchArray` entries whose patch counts sum to exactly the
group's patch count. -/
theorem nonsplit_group_patchCount_sum (tbl : Far.PatchTables)
    (pre post : List Far.NativeGroup) (g : Far.NativeGroup)
    (hsplit : tbl.groups = pre ++ g :: post)
    (hnone : decomposition g.desc = none)
    (hb : g.numPatches < 2 ^ 31) :
    DrawContext.ConvertPatchArrays tbl =
        convertFrom ⟨0, 0, 0⟩ pre ++
          convertGroupArrays (offsetsAfter ⟨0, 0, 0⟩ pre) g ++
          convertFrom (advanceOffsets (offsetsAfter ⟨0, 0, 0⟩ pre) g) post ∧
      ((convertGroupArrays (offsetsAfter ⟨0, 0, 0⟩ pre) g).map
          DrawContext.PatchArray.GetNumPatches).sum = (g.numPatches : Int) := by
  constructor
  · unfold DrawContext.ConvertPatchArrays
    rw [hsplit, convertFrom_append]
    simp [convertFrom]
  · exact convertGroupArrays_numPatches_sum _ g hnone hb

/-- Witness for C2: a table of two native groups, the second a non-split
boundary group of 5 patches preceded by a regular group of 2 patches. -/
theorem nonsplit_group_patchCount_sum_witness :
    DrawContext.ConvertPatchArrays
        ⟨[⟨⟨.regular, .nonTransition, 0⟩, 2, [], [], [0, 1]⟩,
          ⟨⟨.boundary, .nonTransition, 0⟩, 5, [], [], [2, 3, 4, 5, 6]⟩]⟩ =
        convertFrom ⟨0, 0, 0⟩ [⟨⟨.regular, .nonTransition, 0⟩, 2, [], [], [0, 1]⟩] ++
          convertGroupArrays
            (offsetsAfter ⟨0, 0, 0⟩ [⟨⟨.regular, .nonTransition, 0⟩, 2, [], [], [0, 1]⟩])
            ⟨⟨.boundary, .nonTransition, 0⟩, 5, [], [], [2, 3, 4, 5, 6]⟩ ++
          convertFrom
            (advanceOffsets
              (offsetsAfter ⟨0, 0, 0⟩ [⟨⟨.regular, .nonTransition, 0⟩, 2, [], [], [0, 1]⟩])
              ⟨⟨.boundary, .nonTransition, 0⟩, 5, [], [], [2, 3, 4, 5, 6]⟩) [] ∧
      ((convertGroupArrays
          (offsetsAfter ⟨0, 0, 0⟩ [⟨⟨.regular, .nonTransition, 0⟩, 2, [], [], [0, 1]⟩])
          ⟨⟨.boundary, .nonTransition, 0⟩, 5, [], [], [2, 3, 4, 5, 6]⟩).map
        DrawContext.PatchArray.GetNumPatches).sum = (5 : Int) :=
  nonsplit_group_patchCount_sum
    ⟨[⟨⟨.regular, .nonTransition, 0⟩, 2, [], [], [0, 1]⟩,
      ⟨⟨.boundary, .nonTransition, 0⟩, 5, [], [], [2, 3, 4, 5, 6]⟩]⟩
    [⟨⟨.regular, .nonTransition, 0⟩, 2, [], [], [0, 1]⟩] []
    ⟨⟨.boundary, .nonTransition, 0⟩, 5, [], [], [2, 3, 4, 5, 6]⟩
    rfl rfl (by decide)

/-- C3.  For a table containing one native group whose transition pattern
decomposes into 3 triangular hardware-tessellable sub-patches,
`ConvertPatchArrays` emits exactly 3 `PatchArray` entries, all sharing the
same source vertex-index range (vertex offset 0 and patch offset 0), and
the running offsets advance by the native group's total contribution
exactly once, not once per emitted array. -/
theorem transition_split_shares_range (tbl : Far.PatchTables)
    (g : Far.NativeGroup) (subs : List Far.PatchDescriptor)
    (hone : tbl.groups = [g])
    (hdec : decomposition g.desc = some subs)
    (hlen : subs.length = 3)
    (htri : ∀ d ∈ subs, d.patchType = Far.PatchType.triangles)
    (hnz : g.numPatches ≠ 0) :
    (DrawContext.ConvertPatchArrays tbl).length = 3 ∧
      (DrawContext.ConvertPatchArrays tbl).map
          DrawContext.PatchArray.GetVertIndex = [0, 0, 0] ∧
      (DrawContext.ConvertPatchArrays tbl).map
          DrawContext.PatchArray.GetPatchIndex = [0, 0, 0] ∧
      offsetsAfter ⟨0, 0, 0⟩ tbl.groups =
        ⟨g.numPatches * g.desc.GetNumControlVertices, g.numPatches,
          quadOffsetContribution g⟩ := by
  have hconv : DrawContext.ConvertPatchArrays tbl =
      subs.map fun d =>
        ⟨d, (g.numPatches : Int), 0, 0, 0⟩ := by
    unfold DrawContext.ConvertPatchArrays
    rw [hone]
    simp [convertFrom, convertGroupArrays, hdec, hnz]
  obtain ⟨d0, d1, d2, hsubs⟩ : ∃ d0 d1 d2, subs = [d0, d1, d2] := by
    match subs, hlen with
    | [d0, d1, d2], _ => exact ⟨d0, d1, d2, rfl⟩
  refine ⟨?_, ?_, ?_, ?_⟩
  · rw [hconv, List.length_map, hlen]
  · rw [hconv, hsubs]
    simp [DrawContext.PatchArray.GetVertIndex]
  · rw [hconv, hsubs]
    simp [DrawContext.PatchArray.GetPatchIndex]
  · rw [hone]
    simp [offsetsAfter, advanceOffsets]

/-- Witness for C3: a single regular group of 2 patches carrying transition
`pattern2`, whose decomposition is the 3 triangular sub-descriptors. -/
theorem transition_split_shares_range_witness :
    (DrawContext.ConvertPatchArrays
        ⟨[⟨⟨.regular, .pattern2, 0⟩, 2, [], [], [0, 1]⟩]⟩).length = 3 ∧
      (DrawContext.ConvertPatchArrays
          ⟨[⟨⟨.regular, .pattern2, 0⟩, 2, [], [], [0, 1]⟩]⟩).map
        DrawContext.PatchArray.GetVertIndex = [0, 0, 0] ∧
      (DrawContext.ConvertPatchArrays
          ⟨[⟨⟨.regular, .pattern2, 0⟩, 2, [], [], [0, 1]⟩]⟩).map
        DrawContext.PatchArray.GetPatchIndex = [0, 0, 0] ∧
      offsetsAfter ⟨0, 0, 0⟩ [⟨⟨.regular, .pattern2, 0⟩, 2, [], [], [0, 1]⟩] =
        ⟨2 * Far.PatchDescriptor.GetNumControlVertices ⟨.regular, .pattern2, 0⟩, 2,
          quadOffsetContribution ⟨⟨.regular, .pattern2, 0⟩, 2, [], [], [0, 1]⟩⟩ :=
  transition_split_shares_range
    ⟨[⟨⟨.regular, .pattern2, 0⟩, 2, [], [], [0, 1]⟩]⟩
    ⟨⟨.regular, .pattern2, 0⟩, 2, [], [], [0, 1]⟩
    [⟨.triangles, .pattern2, 0⟩, ⟨.triangles, .pattern2, 1⟩,
      ⟨.triangles, .pattern2, 2⟩]
    rfl rfl (by decide) (by decide) (by decide)

/-- C4.  An empty input table converts without error to an empty result:
no `PatchArray` entries and all three packed flat buffers of length zero;
likewise any native group with zero patches is skipped and emits no
`PatchArray`. -/
theorem empty_table_empty_result (w : Nat) (src : List Int)
    (o : ConvOffsets) (g : Far.NativeGroup) (hz : g.numPatches = 0) :
    DrawContext.ConvertPatchArrays ⟨[]⟩ = [] ∧
      DrawContext.packPatchVerts ⟨[]⟩ = [] ∧
      DrawContext.packSharpnessValues ⟨[]⟩ = [] ∧
      DrawContext.packFVarData ⟨[]⟩ w src = [] ∧
      convertGroupArrays o g = [] := by
  refine ⟨rfl, rfl, rfl, rfl, ?_⟩
  simp [convertGroupArrays, hz]

/-- Witness for C4 at width 2, a concrete source buffer, zero offsets and a
zero-patch Gregory group. -/
theorem empty_table_empty_result_witness :
    DrawContext.ConvertPatchArrays ⟨[]⟩ = [] ∧
      DrawContext.packPatchVerts ⟨[]⟩ = [] ∧
      DrawContext.packSharpnessValues ⟨[]⟩ = [] ∧
      DrawContext.packFVarData ⟨[]⟩ 2 [3, 1, 4, 1] = [] ∧
      convertGroupArrays ⟨0, 0, 0⟩ ⟨⟨.gregory, .nonTransition, 0⟩, 0, [], [], []⟩ = [] :=
  empty_table_empty_result 2 [3, 1, 4, 1] ⟨0, 0, 0⟩
    ⟨⟨.gregory, .nonTransition, 0⟩, 0, [], [], []⟩ rfl

/-- C5.  Conversion and packing are deterministic: two runs over the same
input table (fresh outputs each time) produce identical `PatchArray` lists
and identical flat buffers. -/
theorem conversion_deterministic (t₁ t₂ : Far.PatchTables) (w : Nat)
    (src : List Int) (h : t₁ = t₂) :
    DrawContext.ConvertPatchArrays t₁ = DrawContext.ConvertPatchArrays t₂ ∧
      DrawContext.packPatchVerts t₁ = DrawContext.packPatchVerts t₂ ∧
      DrawContext.packSharpnessValues t₁ = DrawContext.packSharpnessValues t₂ ∧
      DrawContext.packFVarData t₁ w src = DrawContext.packFVarData t₂ w src := by
  subst h
  exact ⟨rfl, rfl, rfl, rfl⟩

/-- Witness for C5: two runs over the same one-group table. -/
theorem conversion_deterministic_witness :
    DrawContext.ConvertPatchArrays ⟨[⟨⟨.regular, .nonTransition, 0⟩, 1, [], [], [0]⟩]⟩ =
        DrawContext.ConvertPatchArrays ⟨[⟨⟨.regular, .nonTransition, 0⟩, 1, [], [], [0]⟩]⟩ ∧
      DrawContext.packPatchVerts ⟨[⟨⟨.regular, .nonTransition, 0⟩, 1, [], [], [0]⟩]⟩ =
        DrawContext.packPatchVerts ⟨[⟨⟨.regular, .nonTransition, 0⟩, 1, [], [], [0]⟩]⟩ ∧
      DrawContext.packSharpnessValues ⟨[⟨⟨.regular, .nonTransition, 0⟩, 1, [], [], [0]⟩]⟩ =
        DrawContext.packSharpnessValues ⟨[⟨⟨.regular, .nonTransition, 0⟩, 1, [], [], [0]⟩]⟩ ∧
      DrawContext.packFVarData ⟨[⟨⟨.regular, .nonTransition, 0⟩, 1, [], [], [0]⟩]⟩ 1 [7] =
        DrawContext.packFVarData ⟨[⟨⟨.regular, .nonTransition, 0⟩, 1, [], [], [0]⟩]⟩ 1 [7] :=
  conversion_deterministic
    ⟨[⟨⟨.regular, .nonTransition, 0⟩, 1, [], [], [0]⟩]⟩
    ⟨[⟨⟨.regular, .nonTransition, 0⟩, 1, [], [], [0]⟩]⟩ 1 [7] rfl

end Osd

end OpenSubdiv
